import Mathlib

set_option maxHeartbeats 1000000
set_option maxRecDepth 100000

/-!
Shallow embedding of the RSS/market aggregation pipeline of
`ai_market_aggregator.py` (primary) and, where the behaviour differs,
`clean_market_aggregator.py`.  Strings are modelled as `List Char`
(Python `str` operations such as `len`, slicing and `strip` act on code
points, matching `List Char` exactly); each regex used by the source is a
fixed concrete pattern whose matching behaviour is implemented directly as a
character-level scan with the same semantics (leftmost match, greedy or lazy
as written, `re.IGNORECASE` / `re.DOTALL` / `re.MULTILINE` as written).
Recursions that can skip more than one character per step carry a `fuel`
argument so that every definition is structural and kernel-reducible; every
scan step consumes at least one input character, so fuel equal to the input
length never runs out.
-/

namespace MarketAgg

/-- The whitespace characters removed by Python `str.strip()` (ASCII range,
which is all the source data in question uses). -/
def isPyWs (c : Char) : Bool :=
  c = ' ' || c = '\t' || c = '\n' || c = '\r' || c = '\x0b' || c = '\x0c'

/-- Model of Python `str.strip()`: drop leading and trailing whitespace. -/
def pyStrip (l : List Char) : List Char :=
  ((l.dropWhile isPyWs).reverse.dropWhile isPyWs).reverse

/-- Case-insensitive character equality, modelling `re.IGNORECASE`. -/
def ciEq (a b : Char) : Bool := a.toLower = b.toLower

/-- Does `s` start with `pat`, compared case-insensitively? -/
def ciStarts : List Char → List Char → Bool
  | [], _ => true
  | _ :: _, [] => false
  | p :: ps, c :: cs => ciEq p c && ciStarts ps cs

/-- Split `s` at the first (leftmost) case-insensitive occurrence of `pat`,
returning the text before the occurrence and the text after it.  This is the
matching behaviour of a lazy group followed by the literal `pat`. -/
def splitOnFirstCI (pat : List Char) : List Char → Option (List Char × List Char)
  | [] => if pat.isEmpty then some ([], []) else none
  | c :: rest =>
    if ciStarts pat (c :: rest) then some ([], (c :: rest).drop pat.length)
    else
      match splitOnFirstCI pat rest with
      | some (a, b) => some (c :: a, b)
      | none => none

/-- Fueled scan for `re.findall(r'<tag[^>]*>(.*?)</tag>', s, re.DOTALL |
re.IGNORECASE)` (lines 94 and 96 of `ai_market_aggregator.py`, lines 92 and 95
of `clean_market_aggregator.py`): non-overlapping leftmost matches; each match
takes the opening tag up to its first `>`, then the shortest text followed by
the literal closing tag; scanning resumes after the closing tag.  If no `>`
exists in the remaining input no further match is possible anywhere, so the
scan stops. -/
def findAllBlocksF (tag : List Char) : Nat → List Char → List (List Char)
  | 0, _ => []
  | _, [] => []
  | fuel + 1, c :: rest =>
    if ciStarts ('<' :: tag) (c :: rest) then
      match splitOnFirstCI ['>'] ((c :: rest).drop (tag.length + 1)) with
      | none => []
      | some (_, afterOpen) =>
        match splitOnFirstCI ('<' :: '/' :: (tag ++ ['>'])) afterOpen with
        | some (grp, tail) => grp :: findAllBlocksF tag fuel tail
        | none => findAllBlocksF tag fuel rest
    else findAllBlocksF tag fuel rest

def findAllBlocks (tag : List Char) (s : List Char) : List (List Char) :=
  findAllBlocksF tag s.length s

/-- `re.search(r'<tag[^>]*>(.*?)</tag>', item, re.DOTALL | re.IGNORECASE)`,
returning group 1.  This is the effective title/description pattern of
`ai_market_aggregator.py` lines 104 and 111-114: the pattern written there,
e.g. `<title[^>]*>(?:<!$$CDATA\[)?(.*?)(?:$$\]>)?</title>`, contains `$$` —
two end-of-string anchors each followed by further required characters — so
both optional groups are unmatchable and drop out of the pattern. -/
def searchBlockAI (tag : List Char) : List Char → Option (List Char)
  | [] => none
  | c :: rest =>
    if ciStarts ('<' :: tag) (c :: rest) then
      match splitOnFirstCI ['>'] ((c :: rest).drop (tag.length + 1)) with
      | none => none
      | some (_, afterOpen) =>
        match splitOnFirstCI ('<' :: '/' :: (tag ++ ['>'])) afterOpen with
        | some (grp, _) => some grp
        | none => searchBlockAI tag rest
    else searchBlockAI tag rest

/-- Lazy scan for group 1 of `(.*?)(?:\]\]>)?</tag>`: the shortest text
followed either by `]]></tag>` (the optional CDATA closer taken greedily) or
by `</tag>` alone.  The two alternatives start with different characters, so
at each position at most one applies. -/
def closeCdata (tag : List Char) : List Char → Option (List Char)
  | [] => none
  | c :: rest =>
    if ciStarts (']' :: ']' :: '>' :: '<' :: '/' :: (tag ++ ['>'])) (c :: rest) then some []
    else if ciStarts ('<' :: '/' :: (tag ++ ['>'])) (c :: rest) then some []
    else
      match closeCdata tag rest with
      | some g => some (c :: g)
      | none => none

/-- `re.search(r'<tag[^>]*>(?:<!\[CDATA\[)?(.*?)(?:\]\]>)?</tag>', item,
re.DOTALL | re.IGNORECASE)`, returning group 1 — the title/description
pattern of `clean_market_aggregator.py` lines 103 and 110-113.  The optional
CDATA opener is greedy; if it is present but the rest of the pattern fails,
the pattern without it fails as well (a closing tag cannot begin inside the
nine CDATA characters), so taking it whenever present is faithful. -/
def searchBlockClean (tag : List Char) : List Char → Option (List Char)
  | [] => none
  | c :: rest =>
    if ciStarts ('<' :: tag) (c :: rest) then
      match splitOnFirstCI ['>'] ((c :: rest).drop (tag.length + 1)) with
      | none => none
      | some (_, afterOpen) =>
        let content := if ciStarts ('<' :: '!' :: '[' :: 'C' :: 'D' :: 'A' :: 'T' :: 'A' :: '[' :: []) afterOpen
                       then afterOpen.drop 9 else afterOpen
        match closeCdata tag content with
        | some grp => some grp
        | none => searchBlockClean tag rest
    else searchBlockClean tag rest

/-- Lazy scan for group 1 of `(.*?)</tag>` without `re.DOTALL`: the group may
not cross a newline, so hitting one fails the current starting position. -/
def closeNoNewline (tag : List Char) : List Char → Option (List Char)
  | [] => none
  | c :: rest =>
    if ciStarts ('<' :: '/' :: (tag ++ ['>'])) (c :: rest) then some []
    else if c = '\n' then none
    else
      match closeNoNewline tag rest with
      | some g => some (c :: g)
      | none => none

/-- `re.search(r'<tag[^>]*>(.*?)</tag>', item, re.IGNORECASE)` (no DOTALL),
returning group 1 — the publish-date patterns of both aggregator files. -/
def searchBlockLine (tag : List Char) : List Char → Option (List Char)
  | [] => none
  | c :: rest =>
    if ciStarts ('<' :: tag) (c :: rest) then
      match splitOnFirstCI ['>'] ((c :: rest).drop (tag.length + 1)) with
      | none => none
      | some (_, afterOpen) =>
        match closeNoNewline tag afterOpen with
        | some grp => some grp
        | none => searchBlockLine tag rest
    else searchBlockLine tag rest

/-- Fueled model of `re.sub(r'<[^>]+>', '', s)`: remove every leftmost
occurrence of `<`, at least one non-`>` character, then `>`. -/
def stripTagsF : Nat → List Char → List Char
  | 0, s => s
  | _, [] => []
  | fuel + 1, c :: rest =>
    if c = '<' then
      match splitOnFirstCI ['>'] rest with
      | some (inner, afterTag) =>
        if inner.isEmpty then c :: stripTagsF fuel rest
        else stripTagsF fuel afterTag
      | none => c :: stripTagsF fuel rest
    else c :: stripTagsF fuel rest

def stripTags (l : List Char) : List Char := stripTagsF l.length l

/-- The outcome of one `requests.get` call in `parse_rss_feed`: either the
request raised (any exception, caught by the enclosing `try`) or it returned a
response with a status code and a body text. -/
inductive FetchOutcome where
  | exn (msg : String)
  | resp (status : Nat) (body : String)

/-- The article record built by `parse_rss_feed` in `ai_market_aggregator.py`
(lines 141-146). -/
structure Article where
  title : String
  description : String
  date : String
  source : String
deriving DecidableEq

/-- Title extraction, `ai_market_aggregator.py` lines 103-108: search the
(effective) pattern, default to the sentinel `"No title"` when there is no
match, otherwise strip whitespace and then any remaining HTML tags. -/
def extract_title_ai (item : List Char) : String :=
  match searchBlockAI ('t' :: 'i' :: 't' :: 'l' :: 'e' :: []) item with
  | none => "No title"
  | some g => String.mk (stripTags (pyStrip g))

/-- The description truncation of both aggregator files
(`ai_market_aggregator.py` line 123, `clean_market_aggregator.py` line 122):
`description[:300] + "..." if len(description) > 300 else description`. -/
def truncate_description (d : List Char) : List Char :=
  if 300 < d.length then d.take 300 ++ ('.' :: '.' :: '.' :: []) else d

/-- The candidate description tag names, in the order tried by the source. -/
def descTags : List (List Char) :=
  [('d' :: 'e' :: 's' :: 'c' :: 'r' :: 'i' :: 'p' :: 't' :: 'i' :: 'o' :: 'n' :: []),
   ('s' :: 'u' :: 'm' :: 'm' :: 'a' :: 'r' :: 'y' :: []),
   ('c' :: 'o' :: 'n' :: 't' :: 'e' :: 'n' :: 't' :: [])]

/-- Description extraction, `ai_market_aggregator.py` lines 110-124: the first
candidate pattern with a match wins; the matched text is whitespace-stripped,
HTML-stripped and truncated; with no match the description is `""`. -/
def extract_description_ai (item : List Char) : String :=
  match descTags.findSome? (fun t => searchBlockAI t item) with
  | none => ""
  | some g => String.mk (truncate_description (stripTags (pyStrip g)))

/-- The candidate publish-date tag names, in the order tried by the source. -/
def dateTags : List (List Char) :=
  [('p' :: 'u' :: 'b' :: 'D' :: 'a' :: 't' :: 'e' :: []),
   ('p' :: 'u' :: 'b' :: 'l' :: 'i' :: 's' :: 'h' :: 'e' :: 'd' :: []),
   ('u' :: 'p' :: 'd' :: 'a' :: 't' :: 'e' :: 'd' :: [])]

/-- Publish-date extraction, `ai_market_aggregator.py` lines 126-138. -/
def extract_date (item : List Char) : String :=
  match dateTags.findSome? (fun t => searchBlockLine t item) with
  | none => "No date"
  | some g => String.mk (pyStrip g)

/-- Item extraction, lines 93-96 of `ai_market_aggregator.py`: `<item>` blocks
first, falling back to `<entry>` blocks when none are found. -/
def extract_items (body : List Char) : List (List Char) :=
  let items := findAllBlocks ('i' :: 't' :: 'e' :: 'm' :: []) body
  if items.isEmpty then findAllBlocks ('e' :: 'n' :: 't' :: 'r' :: 'y' :: []) body else items

/-- The body of the per-item loop of `ai_market_aggregator.parse_rss_feed`
(lines 102-146): extract the fields and append an article exactly when the
title is truthy and not the sentinel. -/
def articleLoopStep (source_name : String) (acc : List Article) (item : List Char) :
    List Article :=
  let title := extract_title_ai item
  let description := extract_description_ai item
  let date := extract_date item
  if title ≠ "" ∧ title ≠ "No title" then
    acc ++ [{ title := title, description := description, date := date, source := source_name }]
  else acc

/-- `ai_market_aggregator.parse_rss_feed` (lines 79-152), with the network
request abstracted into the `FetchOutcome` argument.  Returns the status
string and the extracted article list. -/
def parse_rss_feed (source_name : String) (outcome : FetchOutcome) : String × List Article :=
  match outcome with
  | .exn e => ("❌ " ++ source_name ++ ": Error - " ++ e, [])
  | .resp status body =>
    if status ≠ 200 then ("❌ " ++ source_name ++ ": HTTP " ++ toString status, [])
    else
      let items := extract_items body.data
      if items.isEmpty then ("⚠️ " ++ source_name ++ ": No articles found in feed", [])
      else
        let articles := (items.take 5).foldl (articleLoopStep source_name) []
        ("✅ " ++ source_name ++ " (" ++ toString articles.length ++ " articles)", articles)

/-- `ai_market_aggregator.fetch_all_rss_feeds` (lines 154-167), with the
per-URL fetch abstracted into a function: one `parse_rss_feed` call per
configured source, statuses collected in order, article lists concatenated. -/
def fetch_all_rss_feeds (feeds : List (String × String)) (fetch : String → FetchOutcome) :
    List Article × List String :=
  feeds.foldl (fun acc sf =>
    let res := parse_rss_feed sf.1 (fetch sf.2)
    (acc.1 ++ res.2, acc.2 ++ [res.1])) ([], [])

/-- The article record built by `clean_market_aggregator.parse_rss_feed`
(lines 140-144); this revision stores no source field. -/
structure CleanArticle where
  title : String
  description : String
  date : String
deriving DecidableEq

/-- Title extraction of `clean_market_aggregator.py` lines 102-107, whose
pattern has the intact CDATA groups. -/
def extract_title_clean (item : List Char) : String :=
  match searchBlockClean ('t' :: 'i' :: 't' :: 'l' :: 'e' :: []) item with
  | none => "No title"
  | some g => String.mk (stripTags (pyStrip g))

/-- Description extraction of `clean_market_aggregator.py` lines 109-123. -/
def extract_description_clean (item : List Char) : String :=
  match descTags.findSome? (fun t => searchBlockClean t item) with
  | none => ""
  | some g => String.mk (truncate_description (stripTags (pyStrip g)))

/-- The per-item loop body of `clean_market_aggregator.parse_rss_feed`
(lines 101-144). -/
def cleanArticleStep (acc : List CleanArticle) (item : List Char) : List CleanArticle :=
  let title := extract_title_clean item
  let description := extract_description_clean item
  let date := extract_date item
  if title ≠ "" ∧ title ≠ "No title" then
    acc ++ [{ title := title, description := description, date := date }]
  else acc

/-- The article-list portion of `clean_market_aggregator.parse_rss_feed`
(lines 91-144): items scanned from the body, the first five processed by the
per-item loop.  (The surrounding function renders these articles into a text
report; the claims under study concern the article sequence itself.) -/
def clean_feed_articles (body : String) : List CleanArticle :=
  let items := extract_items body.data
  (items.take 5).foldl cleanArticleStep []

/-! ## Quote snapshot fetcher (`fetch_market_data`, lines 42-77) -/

/-- Python truthiness of an `os.getenv` result: `None` and the empty string
are falsy. -/
def truthyOpt : Option String → Bool
  | none => false
  | some s => !(s == "")

/-- The outcome of one per-symbol quote request inside the `try` of
`fetch_market_data`: either some step raised (caught by the `except`), or the
decoded JSON object, of which the code reads the keys `c`, `d` and `dp` — each
possibly absent (outer `Option`) or present but `null` (inner `Option`).
Numeric values are modelled as exact rationals. -/
inductive QuoteOutcome where
  | exn (msg : String)
  | json (c : Option (Option ℚ)) (d : Option (Option ℚ)) (dp : Option (Option ℚ))

def pad2 (n : Nat) : String := if n < 10 then "0" ++ toString n else toString n

/-- Round to the nearest integer, ties to even — the rounding used when
formatting an exactly representable binary float with `:.2f`. -/
def roundHalfEven (q : ℚ) : ℤ :=
  let f := ⌊q⌋
  let r := q - f
  if r < 1/2 then f else if 1/2 < r then f + 1 else if f % 2 = 0 then f else f + 1

/-- Two-decimal fixed-point rendering of a rational, modelling the `:.2f`
float formatting of the source with exact arithmetic (magnitude rounded to
the nearest hundredth, ties to even). -/
def fmt2 (x : ℚ) : String :=
  let n : Nat := (roundHalfEven (|x| * 100)).toNat
  (if x < 0 then "-" else "") ++ toString (n / 100) ++ "." ++ pad2 (n % 100)

/-- Like `fmt2` but with a forced sign, modelling `:+.2f`. -/
def fmtSigned2 (x : ℚ) : String :=
  let n : Nat := (roundHalfEven (|x| * 100)).toNat
  (if x < 0 then "-" else "+") ++ toString (n / 100) ++ "." ++ pad2 (n % 100)

/-- `f"{s:8}"`: left-justify in a field of width `w`. -/
def padRight (w : Nat) (s : String) : String :=
  s ++ String.mk (List.replicate (w - s.length) ' ')

/-- `f"{x:10.2f}"`-style right-justification of an already rendered number. -/
def padLeft (w : Nat) (s : String) : String :=
  String.mk (List.replicate (w - s.length) ' ') ++ s

/-- The single line `fetch_market_data` appends for one symbol (lines 54-72):
an error line if the request raised, the formatted quote line if the JSON has
a non-null `c`, otherwise the no-data line.  `data.get('d', 0) or 0` maps an
absent or `null` (or zero) value to 0, and likewise for `dp`. -/
def symbolLine (symbol : String) (o : QuoteOutcome) : String :=
  match o with
  | .exn msg => padRight 8 symbol ++ " | Error: " ++ msg
  | .json c d dp =>
    match c with
    | some (some current) =>
      let change : ℚ := match d with | some (some v) => v | _ => 0
      let changePct : ℚ := match dp with | some (some v) => v | _ => 0
      let direction := if 0 ≤ change then "🟢" else "🔴"
      padRight 8 symbol ++ " | $" ++ padLeft 10 (fmt2 current) ++ " | " ++ direction ++ " " ++
        padLeft 8 (fmtSigned2 change) ++ " (" ++ padLeft 6 (fmtSigned2 changePct) ++ "%)"
    | _ => padRight 8 symbol ++ " | No data available"

/-- `"=" * 50`. -/
def eqBanner : String := String.mk (List.replicate 50 '=')

/-- The `market_results` list built by `fetch_market_data` (lines 49-75):
header banner, one line per symbol in order, footer banner and timestamp. -/
def market_lines (quote : String → QuoteOutcome) (symbols : List String) (ts : String) :
    List String :=
  (symbols.foldl (fun acc s => acc ++ [symbolLine s (quote s)])
      ["📊 CURRENT MARKET DATA", eqBanner]) ++
    [eqBanner, "Data retrieved: " ++ ts ++ " UTC"]

/-- `fetch_market_data` (lines 42-77), with the per-symbol request abstracted
into `quote` and the current time into `ts`.  Every exception is caught inside
the per-symbol loop, so the function is total by construction. -/
def fetch_market_data (api_key : Option String) (quote : String → QuoteOutcome)
    (symbols : List String) (ts : String) : String :=
  if truthyOpt api_key = false then "❌ No Finnhub API key configured"
  else String.intercalate "\n" (market_lines quote symbols ts)

/-! ## AI analysis fallback chain (`get_ai_analysis`, lines 456-505) -/

/-- `create_basic_analysis` (lines 490-505): the static placeholder text,
parameterised by the rendered current date and the market-data block. -/
def create_basic_analysis (dateStr market_data : String) : String :=
  "**MARKET PERFORMANCE**\n" ++ dateStr ++ "\n\n" ++ market_data ++
    "\n\n**TOP MARKET & ECONOMY STORIES**\n\n**Note:** AI analysis unavailable. " ++
    "Please configure OPENAI_API_KEY or ANTHROPIC_API_KEY for full analysis." ++
    "\n\n**GENERAL NEWS**\n\nBased on article frequency, major themes in today\x27s news " ++
    "include Federal Reserve policy, technology sector developments, and geopolitical " ++
    "events. For detailed analysis and the top 15 stories with full summaries, please " ++
    "enable AI integration.\n\n**Looking Ahead:** Market participants await " ++
    "tomorrow\x27s economic data releases and corporate earnings reports."

/-- `get_ai_analysis` (lines 456-488).  The two provider calls are abstracted
into their results (`none` models a call that returned `None`; the call is
only made when the corresponding key is truthy).  A provider branch returns
only when its key is truthy and its result is truthy (`if analysis:` — a
non-`None`, non-empty string); otherwise control falls through, ending at
`create_basic_analysis`. -/
def get_ai_analysis (openai_key anthropic_key : Option String)
    (openai_result anthropic_result : Option String)
    (dateStr market_data : String) : String × String :=
  if truthyOpt openai_key && truthyOpt openai_result then
    (openai_result.getD "", "OpenAI o4-mini (Enhanced)")
  else if truthyOpt anthropic_key && truthyOpt anthropic_result then
    (anthropic_result.getD "", "Anthropic Claude")
  else (create_basic_analysis dateStr market_data, "Basic Analysis")

/-! ## Report renderer (`convert_markdown_to_html`, lines 507-558) -/

/-- Does the list start with `**`? -/
def isStarStar (l : List Char) : Bool := l.take 2 == ['*', '*']

/-- Lazy search for the close of a bold span: given the text after an opening
`**`, find the shortest non-empty newline-free group followed by `**`,
returning the group and the text after the closing `**`. -/
def findClose : List Char → Option (List Char × List Char)
  | [] => none
  | c :: rest =>
    if c = '\n' then none
    else if isStarStar rest then some ([c], rest.drop 2)
    else
      match findClose rest with
      | some (g, t) => some (c :: g, t)
      | none => none

def strongOpen : List Char := '<' :: 's' :: 't' :: 'r' :: 'o' :: 'n' :: 'g' :: '>' :: []

def strongClose : List Char := '<' :: '/' :: 's' :: 't' :: 'r' :: 'o' :: 'n' :: 'g' :: '>' :: []

/-- Fueled model of `re.sub(r'\*\*(.+?)\*\*', r'<strong>\1</strong>', text)`
(line 510): leftmost non-overlapping matches, lazy group of at least one
non-newline character; on failure at a `**` the scan advances one character. -/
def boldSubF : Nat → List Char → List Char
  | 0, s => s
  | _ + 1, [] => []
  | _ + 1, [c] => [c]
  | fuel + 1, c1 :: c2 :: rest =>
    if c1 = '*' && c2 = '*' then
      match findClose rest with
      | some (g, t) => strongOpen ++ g ++ strongClose ++ boldSubF fuel t
      | none => c1 :: boldSubF fuel (c2 :: rest)
    else c1 :: boldSubF fuel (c2 :: rest)

def boldSub (l : List Char) : List Char := boldSubF l.length l

/-- Python `text.split('\n')`. -/
def splitNl : List Char → List (List Char)
  | [] => [[]]
  | c :: rest =>
    if c = '\n' then [] :: splitNl rest
    else
      match splitNl rest with
      | [] => [[c]]
      | l :: ls => (c :: l) :: ls

/-- Python `'\n'.join(lines)`. -/
def joinNl (ls : List (List Char)) : List Char := List.intercalate ['\n'] ls

/-- One line of `re.sub(r'^#{2,3} (.+)$', r'<h3>\1</h3>', text,
flags=re.MULTILINE)` (line 540): two or three `#`, a space, then at least one
character to the end of the line. -/
def headingLine (l : List Char) : List Char :=
  match l with
  | '#' :: '#' :: '#' :: ' ' :: rest =>
    if rest.isEmpty then l
    else ('<' :: 'h' :: '3' :: '>' :: []) ++ rest ++ ('<' :: '/' :: 'h' :: '3' :: '>' :: [])
  | '#' :: '#' :: ' ' :: rest =>
    if rest.isEmpty then l
    else ('<' :: 'h' :: '3' :: '>' :: []) ++ rest ++ ('<' :: '/' :: 'h' :: '3' :: '>' :: [])
  | _ => l

/-- One line of `re.sub(r'^(Sources?:.*?)$', r'<div class="sources">\1</div>',
text, flags=re.MULTILINE)` (line 543): a line starting `Sources:` or
`Source:` is wrapped whole (the lazy group must reach the line end). -/
def sourcesLine (l : List Char) : List Char :=
  if ('S' :: 'o' :: 'u' :: 'r' :: 'c' :: 'e' :: 's' :: ':' :: []).isPrefixOf l ||
      ('S' :: 'o' :: 'u' :: 'r' :: 'c' :: 'e' :: ':' :: []).isPrefixOf l then
    "<div class=\"sources\">".data ++ l ++ "</div>".data
  else l

/-- Fueled model of Python `s.replace(pat, repl)`: leftmost non-overlapping
occurrences, the replacement text is not rescanned. -/
def pyReplaceF (pat repl : List Char) : Nat → List Char → List Char
  | 0, s => s
  | _, [] => []
  | fuel + 1, c :: rest =>
    if !pat.isEmpty && pat.isPrefixOf (c :: rest) then
      repl ++ pyReplaceF pat repl fuel ((c :: rest).drop pat.length)
    else c :: pyReplaceF pat repl fuel rest

def pyReplace (pat repl s : List Char) : List Char := pyReplaceF pat repl s.length s

/-- Python substring containment `pat in s`. -/
def containsSub (pat : List Char) : List Char → Bool
  | [] => pat.isEmpty
  | c :: rest => pat.isPrefixOf (c :: rest) || containsSub pat rest

/-- The per-line rewrite applied to a recognised market-data line
(lines 526-533): colour the direction emoji and wrap in a monospace div. -/
def formatMarketLine (line : List Char) : List Char :=
  let l1 := if line.contains '🟢' then
      pyReplace ['🟢'] "<span style=\"color: #27ae60;\">🟢</span>".data line
    else line
  let l2 := if l1.contains '🔴' then
      pyReplace ['🔴'] "<span style=\"color: #e74c3c;\">🔴</span>".data l1
    else l1
  "<div style=\"font-family: monospace; font-size: 14px; margin: 5px 0;\">".data ++ l2 ++
    "</div>".data

def mpMarker : List Char := "MARKET PERFORMANCE".data

/-- The stateful line loop of the market-performance pass (lines 514-536):
`in_market_section` switches on at a line containing the marker, off at the
next recognised section header; in between, non-blank lines containing a
known ticker symbol are rewritten. -/
def marketSectionLines (symbols : List String) : List (List Char) → Bool → List (List Char)
  | [], _ => []
  | l :: ls, inSec =>
    if containsSub mpMarker l then l :: marketSectionLines symbols ls true
    else if containsSub "TOP MARKET & ECONOMY STORIES".data l ||
        containsSub "GENERAL NEWS".data l || containsSub "Looking Ahead".data l then
      l :: marketSectionLines symbols ls false
    else if inSec && !(pyStrip l).isEmpty && symbols.any (fun t => containsSub t.data l) then
      formatMarketLine l :: marketSectionLines symbols ls inSec
    else l :: marketSectionLines symbols ls inSec

/-- `convert_markdown_to_html` (lines 507-558): bold pass, the marker-guarded
market-performance pass, heading pass, sources pass, paragraph split/wrap,
then the seven cleanup replacements, in source order. -/
def convert_markdown_to_html (symbols : List String) (text : String) : String :=
  let t1 := boldSub text.data
  let t2 := if containsSub mpMarker t1 then joinNl (marketSectionLines symbols (splitNl t1) false)
            else t1
  let t3 := joinNl ((splitNl t2).map headingLine)
  let t4 := joinNl ((splitNl t3).map sourcesLine)
  let t5 := pyReplace ('\n' :: '\n' :: []) "</p><p>".data t4
  let t6 := "<p>".data ++ t5 ++ "</p>".data
  let t7 := pyReplace "<p></p>".data [] t6
  let t8 := pyReplace "<p><h3>".data "<h3>".data t7
  let t9 := pyReplace "</h3></p>".data "</h3>".data t8
  let t10 := pyReplace "<p><div".data "<div".data t9
  let t11 := pyReplace "</div></p>".data "</div>".data t10
  let t12 := pyReplace "<div class=\"sources\">".data "</p><div class=\"sources\">".data t11
  let t13 := pyReplace "</div><p>".data "</div><p style=\"margin-top: 10px;\">".data t12
  String.mk t13

/-- The non-ticker composition of the renderer: the same transforms with the
market-performance pass skipped (the path taken when the marker is absent). -/
def convert_markdown_plain (text : String) : String :=
  let t1 := boldSub text.data
  let t3 := joinNl ((splitNl t1).map headingLine)
  let t4 := joinNl ((splitNl t3).map sourcesLine)
  let t5 := pyReplace ('\n' :: '\n' :: []) "</p><p>".data t4
  let t6 := "<p>".data ++ t5 ++ "</p>".data
  let t7 := pyReplace "<p></p>".data [] t6
  let t8 := pyReplace "<p><h3>".data "<h3>".data t7
  let t9 := pyReplace "</h3></p>".data "</h3>".data t8
  let t10 := pyReplace "<p><div".data "<div".data t9
  let t11 := pyReplace "</div></p>".data "</div>".data t10
  let t12 := pyReplace "<div class=\"sources\">".data "</p><div class=\"sources\">".data t11
  let t13 := pyReplace "</div><p>".data "</div><p style=\"margin-top: 10px;\">".data t12
  String.mk t13

/-! ## Characterisation helpers and concrete test inputs -/

/-- The article produced for one entry block by the per-item loop of
`ai_market_aggregator.parse_rss_feed`, or `none` when the extracted title is
empty or the sentinel (the pointwise content of `articleLoopStep`). -/
def item_article (source_name : String) (item : List Char) : Option Article :=
  let title := extract_title_ai item
  if title ≠ "" ∧ title ≠ "No title" then
    some { title := title, description := extract_description_ai item,
           date := extract_date item, source := source_name }
  else none

/-- Pointwise content of `cleanArticleStep`. -/
def clean_item_article (item : List Char) : Option CleanArticle :=
  let title := extract_title_clean item
  if title ≠ "" ∧ title ≠ "No title" then
    some { title := title, description := extract_description_clean item,
           date := extract_date item }
  else none

/-- Modelled from the wording of claim C1, not from the code: the first five
qualifying entries of the whole document, in document order, where an entry
without an extractable (non-empty, non-sentinel) title does not consume one of
the five slots. -/
def spec_first5_articles (source_name : String) (body : String) : List Article :=
  ((extract_items body.data).filterMap (item_article source_name)).take 5

/-- How many of the three status markers a status string starts with. -/
def markerCount (st : String) : Nat :=
  (if "✅".data.isPrefixOf st.data then 1 else 0) +
    (if "⚠️".data.isPrefixOf st.data then 1 else 0) +
    (if "❌".data.isPrefixOf st.data then 1 else 0)

/-- Feed document with six entries, the first of which has no title element:
the per-item loop of the source examines only the first five entries. -/
def c1Body : String :=
  "<item><link>only-a-link</link></item>" ++
    "<item><title>T2</title></item><item><title>T3</title></item>" ++
    "<item><title>T4</title></item><item><title>T5</title></item>" ++
    "<item><title>T6</title></item>"

/-- Feed document with a single entry whose title is CDATA-wrapped. -/
def c2Body : String :=
  "<item><title><![CDATA[Fed cuts rates]]></title></item>"

/-- The single entry block of `c2Body`. -/
def c2Item : List Char :=
  "<title><![CDATA[Fed cuts rates]]></title>".data

/-! ## Helper lemmas -/

lemma articleLoopStep_eq (n : String) (acc : List Article) (item : List Char) :
    articleLoopStep n acc item = acc ++ (item_article n item).toList := by
  by_cases h : extract_title_ai item ≠ "" ∧ extract_title_ai item ≠ "No title" <;>
    simp [articleLoopStep, item_article, h]

lemma cleanArticleStep_eq (acc : List CleanArticle) (item : List Char) :
    cleanArticleStep acc item = acc ++ (clean_item_article item).toList := by
  by_cases h : extract_title_clean item ≠ "" ∧ extract_title_clean item ≠ "No title" <;>
    simp [cleanArticleStep, clean_item_article, h]

lemma foldl_articleStep (n : String) :
    ∀ (l : List (List Char)) (acc : List Article),
      l.foldl (articleLoopStep n) acc = acc ++ l.filterMap (item_article n)
  | [], acc => by simp
  | item :: l, acc => by
    rw [List.foldl_cons, foldl_articleStep n l, articleLoopStep_eq]
    cases h : item_article n item <;> simp [h]

lemma foldl_cleanStep :
    ∀ (l : List (List Char)) (acc : List CleanArticle),
      l.foldl cleanArticleStep acc = acc ++ l.filterMap clean_item_article
  | [], acc => by simp
  | item :: l, acc => by
    rw [List.foldl_cons, foldl_cleanStep l, cleanArticleStep_eq]
    cases h : clean_item_article item <;> simp [h]

/-- The article list produced from a successfully fetched document is the
filter of the first five entry blocks through the per-item extraction. -/
lemma parse_rss_feed_articles (name body : String) :
    (parse_rss_feed name (FetchOutcome.resp 200 body)).2 =
      ((extract_items body.data).take 5).filterMap (item_article name) := by
  by_cases h : (extract_items body.data).isEmpty
  · rw [List.isEmpty_iff] at h
    simp [parse_rss_feed, h]
  · simp [parse_rss_feed, h, foldl_articleStep]

lemma clean_feed_articles_eq (body : String) :
    clean_feed_articles body =
      ((extract_items body.data).take 5).filterMap clean_item_article := by
  simp [clean_feed_articles, foldl_cleanStep]

/-- `fetch_all_rss_feeds` is the per-source map of statuses together with the
concatenation of the per-source article lists. -/
lemma fetch_all_rss_feeds_eq (feeds : List (String × String)) (fetch : String → FetchOutcome) :
    fetch_all_rss_feeds feeds fetch =
      (feeds.flatMap (fun p => (parse_rss_feed p.1 (fetch p.2)).2),
       feeds.map (fun p => (parse_rss_feed p.1 (fetch p.2)).1)) := by
  have aux : ∀ (fs : List (String × String)) (acc : List Article × List String),
      fs.foldl (fun acc sf =>
        let res := parse_rss_feed sf.1 (fetch sf.2)
        (acc.1 ++ res.2, acc.2 ++ [res.1])) acc =
      (acc.1 ++ fs.flatMap (fun p => (parse_rss_feed p.1 (fetch p.2)).2),
       acc.2 ++ fs.map (fun p => (parse_rss_feed p.1 (fetch p.2)).1)) := by
    intro fs
    induction fs with
    | nil => intro acc; simp
    | cons p fs ih => intro acc; simp [List.foldl_cons, ih]
  simpa [fetch_all_rss_feeds] using aux feeds ([], [])

lemma create_basic_analysis_ne_empty (d m : String) : create_basic_analysis d m ≠ "" := by
  intro h
  have hlen := congrArg String.length h
  simp only [create_basic_analysis, String.length_append] at hlen
  have h1 : (2 : Nat) ≤ ("\n\n" : String).length := by decide
  have h0 : ("" : String).length = 0 := rfl
  omega

/-! ## Claim theorems -/

/-- C1 (counterexample): on a six-entry document whose first entry has no
title element, the code produces only the four articles T2-T5 (the titleless
entry consumes one of the five slots), while the claim predicts the five
qualifying entries T2-T6; the two disagree. -/
theorem c1_counterexample :
    ((parse_rss_feed "Src" (FetchOutcome.resp 200 c1Body)).2).map Article.title =
      ["T2", "T3", "T4", "T5"] ∧
    (spec_first5_articles "Src" c1Body).map Article.title = ["T2", "T3", "T4", "T5", "T6"] ∧
    (parse_rss_feed "Src" (FetchOutcome.resp 200 c1Body)).2 ≠
      spec_first5_articles "Src" c1Body := by decide

/-- C1 (amended): the article sequence of a source consists of the qualifying
entries — those whose extracted title is non-empty and not the sentinel
`"No title"` — among the **first five entry blocks** of the document, in
document order; an entry without an extractable title consumes one of the five
slots.  This holds for both aggregator revisions. -/
theorem c1_amended :
    (∀ (name body : String),
      (parse_rss_feed name (FetchOutcome.resp 200 body)).2 =
        ((extract_items body.data).take 5).filterMap (item_article name)) ∧
    (∀ body : String,
      clean_feed_articles body =
        ((extract_items body.data).take 5).filterMap clean_item_article) :=
  ⟨parse_rss_feed_articles, clean_feed_articles_eq⟩

/-- C2 (code bug): for an entry whose title is CDATA-wrapped,
`ai_market_aggregator.py` — whose CDATA regex groups contain `$$` and are
therefore unmatchable — captures `<![CDATA[Fed cuts rates]]>`, strips the
whole capture as one HTML tag, is left with an empty title and drops the
entry; `clean_market_aggregator.py`, with the intact pattern, extracts the
inner text as the claim states. -/
theorem c2_code_bug_eval :
    (parse_rss_feed "Src" (FetchOutcome.resp 200 c2Body)).2 = [] ∧
    extract_title_ai c2Item = "" ∧
    extract_title_clean c2Item = "Fed cuts rates" ∧
    clean_feed_articles c2Body =
      [{ title := "Fed cuts rates", description := "", date := "No date" }] := by decide

/-- C3: a description longer than 300 characters is stored as exactly its
first 300 characters followed by `"..."` (303 characters in total); a
description of at most 300 characters is stored unchanged. -/
theorem c3_truncation (d : List Char) :
    (300 < d.length →
      truncate_description d = d.take 300 ++ "...".data ∧
      (d.take 300).length = 300 ∧ (truncate_description d).length = 303) ∧
    (d.length ≤ 300 → truncate_description d = d) := by
  constructor
  · intro h
    have ht : (d.take 300).length = 300 := by
      rw [List.length_take]; omega
    refine ⟨by simp [truncate_description, h], ht, ?_⟩
    simp [truncate_description, h, ht]
  · intro h
    simp [truncate_description]
    omega

theorem c3_truncation_witness :
    300 < (List.replicate 301 'a').length ∧
    truncate_description (List.replicate 301 'a') =
      (List.replicate 301 'a').take 300 ++ "...".data ∧
    (List.replicate 2 'b').length ≤ 300 ∧
    truncate_description (List.replicate 2 'b') = List.replicate 2 'b' :=
  ⟨by simp, ((c3_truncation (List.replicate 301 'a')).1 (by simp)).1,
   by simp, (c3_truncation (List.replicate 2 'b')).2 (by simp)⟩

/-- C4: for every feed source and every fetch outcome, `parse_rss_feed`
returns at most five articles, each bearing a title that is non-empty and
different from the sentinel `"No title"`; `fetch_all_rss_feeds` just
concatenates these per-source lists. -/
theorem c4_per_source_bounds :
    (∀ (name : String) (o : FetchOutcome),
      (parse_rss_feed name o).2.length ≤ 5 ∧
      ∀ a ∈ (parse_rss_feed name o).2, a.title ≠ "" ∧ a.title ≠ "No title") ∧
    (∀ (feeds : List (String × String)) (fetch : String → FetchOutcome),
      (fetch_all_rss_feeds feeds fetch).1 =
        feeds.flatMap (fun p => (parse_rss_feed p.1 (fetch p.2)).2)) := by
  constructor
  · intro name o
    cases o with
    | exn e => simp [parse_rss_feed]
    | resp status body =>
      by_cases hs : status = 200
      · subst hs
        rw [parse_rss_feed_articles]
        constructor
        · calc (((extract_items body.data).take 5).filterMap (item_article name)).length
              ≤ ((extract_items body.data).take 5).length := List.length_filterMap_le _ _
            _ ≤ 5 := by rw [List.length_take]; omega
        · intro a ha
          rw [List.mem_filterMap] at ha
          obtain ⟨it, -, hit⟩ := ha
          simp only [item_article] at hit
          by_cases hc : extract_title_ai it ≠ "" ∧ extract_title_ai it ≠ "No title"
          · rw [if_pos hc] at hit
            obtain rfl := Option.some.inj hit
            exact hc
          · rw [if_neg hc] at hit
            exact absurd hit (by simp)
      · simp [parse_rss_feed, hs]
  · intro feeds fetch
    rw [fetch_all_rss_feeds_eq]

theorem c4_witness :
    ({ title := "T2", description := "", date := "No date", source := "S" } : Article).title ≠ "" ∧
    ({ title := "T2", description := "", date := "No date", source := "S" } : Article).title ≠
      "No title" :=
  (c4_per_source_bounds.1 "S" (FetchOutcome.resp 200 c1Body)).2
    { title := "T2", description := "", date := "No date", source := "S" } (by decide)

/-- C5: with neither provider credential configured, `get_ai_analysis`
returns the `create_basic_analysis` placeholder — a non-empty string — with
the source label `"Basic Analysis"`. -/
theorem c5_basic_fallback (ok ak r1 r2 : Option String) (d m : String)
    (h1 : truthyOpt ok = false) (h2 : truthyOpt ak = false) :
    get_ai_analysis ok ak r1 r2 d m = (create_basic_analysis d m, "Basic Analysis") ∧
      create_basic_analysis d m ≠ "" :=
  ⟨by simp [get_ai_analysis, h1, h2], create_basic_analysis_ne_empty d m⟩

theorem c5_witness :
    get_ai_analysis none none (some "ignored") none "January 1" "md" =
      (create_basic_analysis "January 1" "md", "Basic Analysis") ∧
    create_basic_analysis "January 1" "md" ≠ "" :=
  c5_basic_fallback none none (some "ignored") none "January 1" "md" rfl rfl

/-- C7: a non-200 HTTP status makes `parse_rss_feed` return the status string
`"❌ <source name>: HTTP <status>"` with zero articles, and in
`fetch_all_rss_feeds` such a source contributes exactly that status line and
no articles, the remaining sources being processed as usual. -/
theorem c7_http_error (name url : String) (status : Nat) (body : String)
    (fetch : String → FetchOutcome) (pre suf : List (String × String))
    (hf : fetch url = FetchOutcome.resp status body) (hs : status ≠ 200) :
    parse_rss_feed name (fetch url) =
      ("❌ " ++ name ++ ": HTTP " ++ toString status, []) ∧
    (fetch_all_rss_feeds (pre ++ (name, url) :: suf) fetch).1 =
      (fetch_all_rss_feeds pre fetch).1 ++ (fetch_all_rss_feeds suf fetch).1 ∧
    (fetch_all_rss_feeds (pre ++ (name, url) :: suf) fetch).2 =
      (fetch_all_rss_feeds pre fetch).2 ++
        ("❌ " ++ name ++ ": HTTP " ++ toString status) :: (fetch_all_rss_feeds suf fetch).2 := by
  have hp : parse_rss_feed name (fetch url) =
      ("❌ " ++ name ++ ": HTTP " ++ toString status, []) := by
    rw [hf]; simp [parse_rss_feed, hs]
  refine ⟨hp, ?_, ?_⟩ <;>
    simp [fetch_all_rss_feeds_eq, hp]

theorem c7_witness :
    parse_rss_feed "Fox News Latest" ((fun _ => FetchOutcome.resp 404 "") "u") =
      ("❌ " ++ "Fox News Latest" ++ ": HTTP " ++ toString 404, []) ∧
    (fetch_all_rss_feeds ([] ++ ("Fox News Latest", "u") :: [])
        (fun _ => FetchOutcome.resp 404 "")).1 =
      (fetch_all_rss_feeds [] (fun _ => FetchOutcome.resp 404 "")).1 ++
        (fetch_all_rss_feeds [] (fun _ => FetchOutcome.resp 404 "")).1 ∧
    (fetch_all_rss_feeds ([] ++ ("Fox News Latest", "u") :: [])
        (fun _ => FetchOutcome.resp 404 "")).2 =
      (fetch_all_rss_feeds [] (fun _ => FetchOutcome.resp 404 "")).2 ++
        ("❌ " ++ "Fox News Latest" ++ ": HTTP " ++ toString 404) ::
          (fetch_all_rss_feeds [] (fun _ => FetchOutcome.resp 404 "")).2 :=
  c7_http_error "Fox News Latest" "u" 404 "" (fun _ => FetchOutcome.resp 404 "") [] []
    rfl (by decide)

/-- C9: `get_ai_analysis` treats an empty-string provider response exactly
like a `None` response — an empty OpenAI result falls through to Anthropic
and an empty Anthropic result falls through to the placeholder — and the
returned analysis text is non-empty for every combination of provider
results. -/
theorem c9_empty_like_none (ok ak r1 r2 : Option String) (d m : String) :
    get_ai_analysis ok ak (some "") r2 d m = get_ai_analysis ok ak none r2 d m ∧
    get_ai_analysis ok ak r1 (some "") d m = get_ai_analysis ok ak r1 none d m ∧
    (get_ai_analysis ok ak r1 r2 d m).1 ≠ "" := by
  refine ⟨by simp [get_ai_analysis, truthyOpt], by simp [get_ai_analysis, truthyOpt], ?_⟩
  by_cases h1 : (truthyOpt ok && truthyOpt r1) = true
  · have hr := (Bool.and_eq_true _ _).mp h1 |>.2
    cases r1 with
    | none => simp [truthyOpt] at hr
    | some s =>
      simp only [truthyOpt, Bool.not_eq_true'] at hr
      simp [get_ai_analysis, h1]
      simpa using hr
  · by_cases h2 : (truthyOpt ak && truthyOpt r2) = true
    · have hr := (Bool.and_eq_true _ _).mp h2 |>.2
      cases r2 with
      | none => simp [truthyOpt] at hr
      | some s =>
        simp only [truthyOpt, Bool.not_eq_true'] at hr
        simp [get_ai_analysis, h1, h2]
        simpa using hr
    · simp [get_ai_analysis, h1, h2, create_basic_analysis_ne_empty]

/-- C10: every status string produced by `parse_rss_feed` starts with exactly
one of the three markers ✅ / ⚠️ / ❌, and `fetch_all_rss_feeds` returns
exactly one status per configured source, in source-list order. -/
theorem c10_status_markers :
    (∀ (name : String) (o : FetchOutcome), markerCount (parse_rss_feed name o).1 = 1) ∧
    (∀ (feeds : List (String × String)) (fetch : String → FetchOutcome),
      (fetch_all_rss_feeds feeds fetch).2 =
        feeds.map (fun p => (parse_rss_feed p.1 (fetch p.2)).1) ∧
      (fetch_all_rss_feeds feeds fetch).2.length = feeds.length) := by
  constructor
  · intro name o
    cases o with
    | exn e => rfl
    | resp status body =>
      by_cases hs : status ≠ 200
      · simp only [parse_rss_feed, if_pos hs]
        rfl
      · by_cases hi : (extract_items body.data).isEmpty
        · simp only [parse_rss_feed, if_neg hs, hi, if_true]
          rfl
        · simp only [parse_rss_feed, if_neg hs, hi, if_false]
          rfl
  · intro feeds fetch
    rw [fetch_all_rss_feeds_eq]
    exact ⟨rfl, by simp⟩

lemma foldl_append_map {α β : Type} (f : α → β) :
    ∀ (l : List α) (init : List β),
      l.foldl (fun acc s => acc ++ [f s]) init = init ++ l.map f
  | [], init => by simp
  | x :: l, init => by
    rw [List.foldl_cons, foldl_append_map f l]
    simp

/-- The lines built by `fetch_market_data` are the two header lines, one line
per symbol in order, and the two footer lines. -/
lemma market_lines_eq (quote : String → QuoteOutcome) (symbols : List String) (ts : String) :
    market_lines quote symbols ts =
      ("📊 CURRENT MARKET DATA" :: eqBanner ::
          symbols.map (fun s => symbolLine s (quote s))) ++
        [eqBanner, "Data retrieved: " ++ ts ++ " UTC"] := by
  simp [market_lines, foldl_append_map]

/-- C6: with a truthy API credential and a non-empty symbol list of length
`N`, the rendered block of `fetch_market_data` consists of the header banner,
exactly `N` data rows — row `i` being `symbolLine` of symbol `i` and its fetch
outcome, whatever that outcome is — and the footer banner with timestamp.
The function is total (every per-symbol exception is a value of
`QuoteOutcome`), so it never raises. -/
theorem c6_market_rows (api_key : Option String) (quote : String → QuoteOutcome)
    (symbols : List String) (ts : String)
    (hk : truthyOpt api_key = true) (hne : symbols ≠ []) :
    fetch_market_data api_key quote symbols ts =
      String.intercalate "\n"
        (("📊 CURRENT MARKET DATA" :: eqBanner ::
            symbols.map (fun s => symbolLine s (quote s))) ++
          [eqBanner, "Data retrieved: " ++ ts ++ " UTC"]) ∧
    (symbols.map (fun s => symbolLine s (quote s))).length = symbols.length ∧
    ∀ i : Nat, (symbols.map (fun s => symbolLine s (quote s)))[i]? =
      symbols[i]?.map (fun s => symbolLine s (quote s)) := by
  refine ⟨?_, by simp, fun i => by simp⟩
  simp [fetch_market_data, hk, market_lines_eq]

theorem c6_witness :
    fetch_market_data (some "key") (fun _ => QuoteOutcome.exn "down") ["QQQ"] "ts" =
      String.intercalate "\n"
        (("📊 CURRENT MARKET DATA" :: eqBanner ::
            (["QQQ"].map (fun s => symbolLine s ((fun _ => QuoteOutcome.exn "down") s)))) ++
          [eqBanner, "Data retrieved: " ++ "ts" ++ " UTC"]) :=
  (c6_market_rows (some "key") (fun _ => QuoteOutcome.exn "down") ["QQQ"] "ts" rfl
    (by decide)).1

/-! ## The bold pass cannot create the market-performance marker (for C8) -/

lemma isPrefixOf_true_iff : ∀ (p l : List Char), p.isPrefixOf l = true ↔ p <+: l
  | [], l => by simp [List.isPrefixOf]
  | a :: p, [] => by simp [List.isPrefixOf, List.prefix_nil]
  | a :: p, b :: l => by
    rw [List.isPrefixOf, Bool.and_eq_true, beq_iff_eq, isPrefixOf_true_iff p l,
      List.cons_prefix_cons]

lemma containsSub_true_iff (pat : List Char) :
    ∀ l : List Char, containsSub pat l = true ↔ pat <:+: l
  | [] => by
    simp [containsSub, List.isEmpty_iff, List.infix_nil]
  | c :: rest => by
    rw [containsSub, Bool.or_eq_true, containsSub_true_iff pat rest, List.infix_cons_iff]
    constructor
    · rintro (h | h)
      · exact Or.inl (isPrefixOf_true_iff pat (c :: rest) |>.mp h)
      · exact Or.inr h
    · rintro (h | h)
      · exact Or.inl (isPrefixOf_true_iff pat (c :: rest) |>.mpr h)
      · exact Or.inr h

lemma findClose_eq :
    ∀ (l : List Char) {g t : List Char}, findClose l = some (g, t) → l = g ++ '*' :: '*' :: t
  | [], g, t => by simp [findClose]
  | c :: rest, g, t => by
    intro h
    rw [findClose] at h
    by_cases hn : c = '\n'
    · rw [if_pos hn] at h
      exact absurd h (by simp)
    · rw [if_neg hn] at h
      by_cases hs : isStarStar rest = true
      · rw [if_pos hs] at h
        obtain ⟨hg, ht⟩ := Prod.mk.injEq .. |>.mp (Option.some.inj h)
        have hrest : rest = '*' :: '*' :: rest.drop 2 := by
          have h2 : rest.take 2 = ['*', '*'] := by
            simpa [isStarStar] using hs
          conv_lhs => rw [← List.take_append_drop 2 rest]
          rw [h2]
          rfl
        subst hg ht
        rw [hrest]
        rfl
      · rw [if_neg hs] at h
        cases hrec : findClose rest with
        | none => rw [hrec] at h; exact absurd h (by simp)
        | some p =>
          obtain ⟨g', t'⟩ := p
          rw [hrec] at h
          obtain ⟨hg, ht⟩ := Prod.mk.injEq .. |>.mp (Option.some.inj h)
          subst hg ht
          rw [List.cons_append]
          rw [← findClose_eq rest hrec]

lemma prefix_append_cases {l a b : List Char} (h : l <+: a ++ b) :
    l <+: a ∨ ∃ l₂, l = a ++ l₂ ∧ l₂ <+: b := by
  induction a generalizing l with
  | nil => exact Or.inr ⟨l, rfl, by simpa using h⟩
  | cons x a ih =>
    cases l with
    | nil => exact Or.inl (List.nil_prefix)
    | cons y l =>
      rw [List.cons_append] at h
      obtain ⟨rfl, hl⟩ := List.cons_prefix_cons.mp h
      rcases ih hl with h1 | ⟨l₂, rfl, h2⟩
      · exact Or.inl (List.cons_prefix_cons.mpr ⟨rfl, h1⟩)
      · exact Or.inr ⟨l₂, by simp, h2⟩

lemma infix_append_cases {l a b : List Char} (h : l <:+: a ++ b) :
    l <:+: a ∨ l <:+: b ∨
      ∃ l₁ l₂, l = l₁ ++ l₂ ∧ l₁ ≠ [] ∧ l₂ ≠ [] ∧ l₁ <:+ a ∧ l₂ <+: b := by
  induction a generalizing l with
  | nil => exact Or.inr (Or.inl (by simpa using h))
  | cons x a ih =>
    rw [List.cons_append] at h
    rcases List.infix_cons_iff.mp h with hpre | htail
    · rcases prefix_append_cases (show l <+: (x :: a) ++ b by
          rw [List.cons_append]; exact hpre) with h1 | ⟨l₂, rfl, h2⟩
      · exact Or.inl h1.isInfix
      · by_cases hl2 : l₂ = []
        · subst hl2
          exact Or.inl (by simp)
        · exact Or.inr (Or.inr ⟨x :: a, l₂, rfl, by simp, hl2, List.suffix_rfl, h2⟩)
    · rcases ih htail with h1 | h1 | ⟨l₁, l₂, hM, h3, h4, h5, h6⟩
      · exact Or.inl (List.infix_cons h1)
      · exact Or.inr (Or.inl h1)
      · exact Or.inr (Or.inr ⟨l₁, l₂, hM, h3, h4, h5.trans ⟨[x], rfl⟩, h6⟩)

/-- A non-empty suffix of a list ending in `>` contains `>`. -/
lemma suffix_ends_gt (a : List Char) {l : List Char} (ha : a.getLast? = some '>') (h : l <:+ a)
    (hne : l ≠ []) : '>' ∈ l := by
  obtain ⟨u, rfl⟩ := h
  rw [List.getLast?_append_of_ne_nil u hne] at ha
  obtain ⟨hl, hx⟩ := List.mem_getLast?_eq_getLast ha
  exact hx ▸ List.getLast_mem hl

/-- A non-empty prefix of `x :: xs` contains `x`. -/
lemma prefix_head_mem {x : Char} {xs l : List Char} (h : l <+: x :: xs) (hne : l ≠ []) :
    x ∈ l := by
  obtain ⟨m, l', rfl⟩ := List.exists_cons_of_ne_nil hne
  obtain ⟨rfl, -⟩ := List.cons_prefix_cons.mp h
  exact List.mem_cons_self _ _

def markerTail : List Char := "ARKET PERFORMANCE".data

/-- If a non-empty tag-free word is a prefix of a bold-pass output, it is a
prefix of the input: the pass only deletes `**` pairs (never at the very
start of a surviving prefix) and inserts tag text beginning with `<`. -/
lemma prefix_of_boldSubF :
    ∀ (fuel : Nat) (s M : List Char), M ≠ [] → '<' ∉ M →
      M <+: boldSubF fuel s → M <+: s := by
  intro fuel
  induction fuel with
  | zero => intro s M _ _ h; simpa [boldSubF] using h
  | succ fuel ih =>
    intro s M hne hlt h
    match s with
    | [] => simpa [boldSubF] using h
    | [c] => simpa [boldSubF] using h
    | c1 :: c2 :: rest =>
      rw [boldSubF] at h
      have step : M <+: c1 :: boldSubF fuel (c2 :: rest) → M <+: c1 :: c2 :: rest := by
        intro hh
        obtain ⟨m, M', rfl⟩ := List.exists_cons_of_ne_nil hne
        obtain ⟨rfl, hM'⟩ := List.cons_prefix_cons.mp hh
        by_cases hM'e : M' = []
        · subst hM'e
          exact List.cons_prefix_cons.mpr ⟨rfl, List.nil_prefix⟩
        · exact List.cons_prefix_cons.mpr
            ⟨rfl, ih (c2 :: rest) M' hM'e (fun hm => hlt (List.mem_cons_of_mem _ hm)) hM'⟩
      by_cases hb : (c1 = '*' && c2 = '*') = true
      · cases hfc : findClose rest with
        | some p =>
          obtain ⟨g, t⟩ := p
          simp only [hb, hfc, if_true] at h
          obtain ⟨m, M', rfl⟩ := List.exists_cons_of_ne_nil hne
          have hcons : strongOpen ++ g ++ strongClose ++ boldSubF fuel t =
              '<' :: (('s' :: 't' :: 'r' :: 'o' :: 'n' :: 'g' :: '>' :: []) ++ g ++
                strongClose ++ boldSubF fuel t) := by
            simp [strongOpen]
          rw [hcons] at h
          obtain ⟨rfl, -⟩ := List.cons_prefix_cons.mp h
          exact absurd (List.mem_cons_self _ _) hlt
        | none =>
          simp only [hb, hfc, if_true] at h
          exact step h
      · simp only [hb, if_false, Bool.false_eq_true] at h
        exact step h

/-- The market-performance marker cannot be an infix of a bold-pass output
unless it was an infix of the input. -/
lemma infix_of_boldSubF :
    ∀ (fuel : Nat) (s : List Char), mpMarker <:+: boldSubF fuel s → mpMarker <:+: s := by
  intro fuel
  induction fuel with
  | zero => intro s h; simpa [boldSubF] using h
  | succ fuel ih =>
    intro s h
    have hmp : mpMarker = 'M' :: markerTail := rfl
    match s with
    | [] => simpa [boldSubF] using h
    | [c] =>
      rw [boldSubF] at h
      have hl := h.length_le
      have h18 : mpMarker.length = 18 := by decide
      simp [h18] at hl
    | c1 :: c2 :: rest =>
      rw [boldSubF] at h
      have step : mpMarker <:+: c1 :: boldSubF fuel (c2 :: rest) →
          mpMarker <:+: c1 :: c2 :: rest := by
        intro hh
        rcases List.infix_cons_iff.mp hh with hpre | htail
        · rw [hmp] at hpre
          obtain ⟨hc1, htl⟩ := List.cons_prefix_cons.mp hpre
          have hM' := prefix_of_boldSubF fuel (c2 :: rest) markerTail (by decide)
            (by decide) htl
          rw [hmp]
          exact (List.cons_prefix_cons.mpr ⟨hc1, hM'⟩).isInfix
        · exact List.infix_cons (ih (c2 :: rest) htail)
      by_cases hb : (c1 = '*' && c2 = '*') = true
      · cases hfc : findClose rest with
        | none => exact step (by simp only [hb, hfc, if_true] at h; exact h)
        | some p =>
          obtain ⟨g, t⟩ := p
          simp only [hb, hfc, if_true] at h
          have hrest : rest = g ++ '*' :: '*' :: t := findClose_eq rest hfc
          rw [List.append_assoc, List.append_assoc] at h
          rcases infix_append_cases h with h1 | h1 | ⟨l₁, l₂, hM, hl1, hl2, hsuf, hpre2⟩
          · exact absurd h1 (by decide)
          · rcases infix_append_cases h1 with h2 | h2 | ⟨l₁, l₂, hM, hl1, hl2, hsuf, hpre2⟩
            · have hginf : g <:+: c1 :: c2 :: rest := by
                rw [hrest]
                exact ⟨[c1, c2], '*' :: '*' :: t, by simp⟩
              exact h2.trans hginf
            · rcases infix_append_cases h2 with h3 | h3 | ⟨l₁, l₂, hM, hl1, hl2, hsuf, hpre2⟩
              · exact absurd h3 (by decide)
              · have htinf : t <:+: c1 :: c2 :: rest := by
                  rw [hrest]
                  exact ⟨c1 :: c2 :: (g ++ ['*', '*']), [], by simp⟩
                exact (ih t h3).trans htinf
              · have hgt : '>' ∈ l₁ := suffix_ends_gt strongClose rfl hsuf hl1
                have : '>' ∈ mpMarker := hM ▸ List.mem_append_left _ hgt
                exact absurd this (by decide)
            · have hlt : '<' ∈ l₂ := by
                have hcons : strongClose ++ boldSubF fuel t =
                    '<' :: (('/' :: 's' :: 't' :: 'r' :: 'o' :: 'n' :: 'g' :: '>' :: []) ++
                      boldSubF fuel t) := by
                  simp [strongClose]
                rw [hcons] at hpre2
                exact prefix_head_mem hpre2 hl2
              have : '<' ∈ mpMarker := hM ▸ List.mem_append_right _ hlt
              exact absurd this (by decide)
          · have hgt : '>' ∈ l₁ := suffix_ends_gt strongOpen rfl hsuf hl1
            have : '>' ∈ mpMarker := hM ▸ List.mem_append_left _ hgt
            exact absurd this (by decide)
      · simp only [hb, if_false, Bool.false_eq_true] at h
        exact step h

/-- C8: on input without the `MARKET PERFORMANCE` marker the renderer output
is exactly the composition of the bold, heading, sources-line, paragraph and
cleanup transforms — the ticker-colorisation pass does not run (and, since
the bold pass cannot manufacture the marker, the guard it actually tests is
false whenever the input lacks the marker). -/
theorem c8_renderer_skip (symbols : List String) (text : String)
    (h : ¬ mpMarker <:+: text.data) :
    convert_markdown_to_html symbols text = convert_markdown_plain text := by
  have hb : containsSub mpMarker (boldSub text.data) = false := by
    cases hcb : containsSub mpMarker (boldSub text.data) with
    | false => rfl
    | true =>
      rw [boldSub] at hcb
      exact absurd (infix_of_boldSubF _ _ ((containsSub_true_iff _ _).mp hcb)) h
  simp only [convert_markdown_to_html, convert_markdown_plain, boldSub] at hb ⊢
  rw [hb]
  simp

theorem c8_witness :
    convert_markdown_to_html [] "no marker **here**" = convert_markdown_plain "no marker **here**" :=
  c8_renderer_skip [] "no marker **here**" (by decide)

end MarketAgg
